import Mathlib

/-!
Shallow embedding of the `enumr` ranged-enumeration package
(`src/enumr/__init__.py`): the metaclass builder `_MetaEnumr.__new__`
(descriptor parsing, sorting, overlap validation, lookup structures)
and the resolver `enumr.__new__` (direct lookup, binary search,
fallback/error on miss).
-/

namespace Enumr

/-- Model of the Python values that flow through the builder and the
resolver: integers, strings, sequences (tuples and lists are treated
identically by the source, which only tests
`isinstance(x, tuple) or isinstance(x, list)`), `None`, classes
(`pyType nm isExcSubclass` records whether the class is a subclass of
`BaseException`, the only fact `enumr.__new__` tests about a class),
and exception instances. -/
inductive PyVal where
  | pyInt (n : Int)
  | pyStr (s : String)
  | pySeq (elems : List PyVal)
  | pyNone
  | pyType (nm : String) (isExcSubclass : Bool)
  | pyExc (nm : String)

/-- Name of a value's Python type, as used in the `TypeError` message
of `items_factory` (`type(descr).__name__`). -/
def pyTypeName : PyVal → String
  | .pyInt _ => "int"
  | .pyStr _ => "str"
  | .pySeq _ => "tuple"
  | .pyNone => "NoneType"
  | .pyType _ _ => "type"
  | .pyExc _ => "Exception"

/-- Errors raised during class construction in `_MetaEnumr.__new__`
(and by the `subrangef` constructor it calls).  Each constructor
carries the data interpolated into the corresponding Python message. -/
inductive BuildErr where
  /-- `TypeError("item %r descriptor is %s, must be tuple or list")`:
  the member name and the offending descriptor's type name. -/
  | descrTypeError (itemName : String) (typeName : String)
  /-- `ValueError("item %r descriptor contains %d fields, %d required")`:
  the member name, the actual field count, the expected field count. -/
  | descrArityError (itemName : String) (actual expected : Nat)
  /-- Error of the external `subrangef` constructor when the range
  initializer has `lo > hi` (documented behaviour of the `subrange`
  dependency). -/
  | invalidRangeError (lo hi : Int)
  /-- Error of the external `subrangef` constructor when the positional
  arguments are not one integer or two integers. -/
  | invalidInitError
  /-- `ValueError("overlapping ranges ... in items ...")`: names and
  range bounds of the two adjacent offending members, the earlier one
  (by sorted position) first, exactly as formatted by the source. -/
  | overlappingRangesError (prevName : String) (prevLow prevHigh : Int)
      (itemName : String) (itemLow itemHigh : Int)

/-- A Python `dict` keyed by strings, as an association list whose
`dictInsert` mirrors `d[k] = v`: replace the value in place if the key
is present, append otherwise. -/
def dictInsert (k : String) (v : PyVal) :
    List (String × PyVal) → List (String × PyVal)
  | [] => [(k, v)]
  | (k', v') :: rest =>
      if k' = k then (k, v) :: rest else (k', v') :: dictInsert k v rest

/-- Lookup in a string-keyed dict (first matching key; keys are unique
because the dict is only built through `dictInsert`). -/
def dictLookup (k : String) : List (String × PyVal) → Option PyVal
  | [] => none
  | (k', v') :: rest => if k' = k then some v' else dictLookup k rest

/-- `dict(zip(ks, vs))`: zip truncates at the shorter list, and the
dict keeps the last binding of a repeated key (`dictInsert` replaces). -/
def dictZip (ks : List String) (vs : List PyVal) : List (String × PyVal) :=
  (List.zip ks vs).foldl (fun d p => dictInsert p.1 p.2 d) []

/-- An enum item: an instance of the external `subrangef` class as
`enumr` uses it — an inclusive integer range `[min, max]` plus the
keyword arguments (`name`, optional `str_spec`, and the declared
custom attributes) that `items_factory` passed to the constructor. -/
structure Item where
  min : Int
  max : Int
  kwargs : List (String × PyVal)

/-- The item's `name` attribute: `items_factory` always stores
`kwargs['name'] = name` (a string) last, so the lookup succeeds on
every item the builder creates. -/
def Item.name (it : Item) : String :=
  match dictLookup "name" it.kwargs with
  | some (.pyStr s) => s
  | _ => ""

/-- `len(item)` of a `subrange`: the number of integers in the
inclusive range. -/
def Item.size (it : Item) : Int := it.max - it.min + 1

/-- Modelled from the spec: the constructor of the external `subrange`
dependency is not part of this repository, so its documented behaviour
is taken from the spec (a single integer `n` gives the singleton range
`[n, n]`; a pair `lo, hi` gives `[lo, hi]` and fails with the
invalid-range error when `lo > hi`) and from this package's own
docstrings; keyword arguments become the item's attributes. -/
def subrangef (args : List PyVal) (kwargs : List (String × PyVal)) :
    Except BuildErr Item :=
  match args with
  | [.pyInt n] => .ok ⟨n, n, kwargs⟩
  | [.pyInt lo, .pyInt hi] =>
      if lo ≤ hi then .ok ⟨lo, hi, kwargs⟩
      else .error (.invalidRangeError lo hi)
  | _ => .error .invalidInitError

/-- The nested `items_factory` function of `_MetaEnumr.__new__`: turn a
member name and raw descriptor into a `subrangef` item, using the
class-wide attribute-name list `ant_spec` and format string `str_spec`.
When `ant_spec` is non-empty the descriptor must be a sequence of
exactly `1 + len(ant_spec)` elements (first the range initializer, then
the attribute values, zipped into keyword arguments); otherwise the
descriptor itself is the range initializer.  A non-sequence initializer
is wrapped into a one-element tuple.  `str_spec` (when non-empty) and
`name` are stored into the keyword dict last, in that order. -/
def items_factory (ant_spec : List String) (str_spec : String)
    (name : String) (descr : PyVal) : Except BuildErr Item :=
  let finish := fun (args0 : PyVal) (kwargs0 : List (String × PyVal)) =>
    let args : List PyVal :=
      match args0 with
      | .pySeq l => l
      | a => [a]
    let kwargs1 :=
      if str_spec = "" then kwargs0
      else dictInsert "str_spec" (.pyStr str_spec) kwargs0
    subrangef args (dictInsert "name" (.pyStr name) kwargs1)
  if ant_spec = [] then finish descr []
  else
    match descr with
    | .pySeq elems =>
        if elems.length = 1 + ant_spec.length then
          finish (elems.headD .pyNone) (dictZip ant_spec (elems.drop 1))
        else
          .error (.descrArityError name elems.length (1 + ant_spec.length))
    | _ => .error (.descrTypeError name (pyTypeName descr))

/-- Consume `(name, descr)` pairs in order, building each item with
`items_factory`; the first failure aborts, exactly as the exception
from the generator inside `sorted(list(...))` propagates. -/
def buildItems (ant_spec : List String) (str_spec : String) :
    List (String × PyVal) → Except BuildErr (List Item)
  | [] => .ok []
  | p :: rest =>
      match items_factory ant_spec str_spec p.1 p.2 with
      | .error e => .error e
      | .ok it =>
          match buildItems ant_spec str_spec rest with
          | .error e => .error e
          | .ok its => .ok (it :: its)

/-- Insert an item into a list sorted ascending by `min`
(one step of the `sorted(..., key=lambda item: item.min)` call). -/
def insertByMin (x : Item) : List Item → List Item
  | [] => [x]
  | y :: ys => if x.min ≤ y.min then x :: y :: ys else y :: insertByMin x ys

/-- Sort the items ascending by `min`
(`sorted(..., key=lambda item: item.min)`). -/
def sortByMin : List Item → List Item
  | [] => []
  | x :: xs => insertByMin x (sortByMin xs)

/-- The `name.startswith("_")` test selecting private names: true
exactly when the first character is an underscore (false on the empty
string, as in Python). -/
def isPrivateName (s : String) : Bool := s.data.head? = some '_'

/-- The overlap validation loop
`for item, prev in zip(items[1:], items[:-1])`: walk adjacent pairs of
the sorted list and raise at the first pair with `not item > prev`,
where `item > prev` on subranges means strict separation
`prev.max < item.min`.  The error reports the earlier member first,
matching `"overlapping ranges {0.value} and {1.value} in items
{0.name!r} and {1.name!r}".format(prev, item)`. -/
def checkAdjacent : List Item → Except BuildErr Unit
  | a :: b :: rest =>
      if a.max < b.min then checkAdjacent (b :: rest)
      else .error (.overlappingRangesError a.name a.min a.max
                     b.name b.min b.max)
  | _ => .ok ()

/-- The validated enumeration class as `_MetaEnumr.__new__` leaves it:
the class name, the sorted items, `_lookup_dict` (value of `item.min`
to item, for every item; keys are unique because overlap validation
has already passed when the dict is built, so an association list
searched by key is observationally the Python dict) and `_ranges_list`
(the items with more than one value, in sorted order). -/
structure EnumDef where
  clsName : String
  items : List Item
  lookupDict : List (Int × Item)
  rangesList : List Item

/-- The whole of `_MetaEnumr.__new__` on the member declarations:
build an item per public (non-underscore) name in declaration order,
sort by `min`, validate adjacent pairs, then attach `_lookup_dict` and
`_ranges_list`.  Any error aborts construction with no class produced.
`ant_spec` is taken after the source's normalization (a lone string
has already been wrapped into a one-element tuple); `clsName` is the
class name used in resolver error messages. -/
def buildEnumr (clsName : String) (ant_spec : List String)
    (str_spec : String) (decls : List (String × PyVal)) :
    Except BuildErr EnumDef :=
  match buildItems ant_spec str_spec
      (decls.filter fun p => !isPrivateName p.1) with
  | .error e => .error e
  | .ok raw =>
      let items := sortByMin raw
      match checkAdjacent items with
      | .error e => .error e
      | .ok _ =>
          .ok { clsName := clsName
                items := items
                lookupDict := items.map fun it => (it.min, it)
                rangesList := items.filter fun it => 1 < it.size }

/-- `cls._lookup_dict[value]` with the `KeyError` caught: find the
entry with the given key. -/
def lookupGet (d : List (Int × Item)) (v : Int) : Option Item :=
  (d.find? fun p => p.1 = v).map Prod.snd

/-- The binary-search loop of `enumr.__new__` over `_ranges_list`:
`while left <= right`, `mid = (left + right) / 2` (Python 2 floor
division, which for the positive divisor 2 coincides with Lean's `Int`
division), return `ranges_list[mid]` if it contains the value, narrow
to the left half if the value is below its range, to the right half
otherwise.  The loop is driven by a fuel parameter so that the
function stays structurally recursive and executable; `bsearch` passes
fuel strictly larger than `right + 1 - left`, which bounds the
iteration count since that quantity strictly decreases every
iteration, so the fuel-exhaustion branch is unreachable (this is
proved, not assumed: the correctness lemma below holds for every
sufficient fuel). -/
def bsearchAux (l : List Item) (v : Int) : Nat → Int → Int → Option Item
  | 0, _, _ => none
  | fuel + 1, left, right =>
    if left ≤ right then
      let mid := (left + right) / 2
      match l[mid.toNat]? with
      | none => none
      | some item =>
          if item.min ≤ v ∧ v ≤ item.max then some item
          else if v < item.min then bsearchAux l v fuel left (mid - 1)
          else bsearchAux l v fuel (mid + 1) right
    else none

/-- Binary search over the whole list:
`(left, right) = (0, len(ranges_list) - 1)`. -/
def bsearch (l : List Item) (v : Int) : Option Item :=
  bsearchAux l v (l.length + 1) 0 ((l.length : Int) - 1)

/-- Outcome of `enumr.__new__` (the resolver): a member was found and
returned; the `default` argument was returned unchanged; the
`TypeError("invalid initializer %r")` for a non-integer value; or the
miss error `default("%s is not in %s" % (value, cls.__name__))` raised
when `default` is an exception class, recording the error kind, the
value and the class name interpolated into its message. -/
inductive ResolveOutcome where
  | found (it : Item)
  | returned (v : PyVal)
  | typeError (v : PyVal)
  | missError (kind : String) (value : Int) (clsName : String)

/-- `enumr.__new__(cls, value, default)`: reject non-integers, try
`_lookup_dict`, then binary-search `_ranges_list`; on a miss, raise
`default` parameterized by the value and the class name if it is a
class that subclasses `BaseException`, and return it unchanged
otherwise. -/
def resolve (d : EnumDef) (value : PyVal) (default : PyVal) :
    ResolveOutcome :=
  match value with
  | .pyInt v =>
      match lookupGet d.lookupDict v with
      | some it => .found it
      | none =>
          match bsearch d.rangesList v with
          | some it => .found it
          | none =>
              match default with
              | .pyType nm true => .missError nm v d.clsName
              | _ => .returned default
  | _ => .typeError value

/-- The `isinstance(default, type) and issubclass(default, BaseException)`
test of the resolver's miss branch. -/
def isExcClass : PyVal → Bool
  | .pyType _ b => b
  | _ => false

/-- Whether an item's range contains the integer, as a Boolean
predicate (`value in item` on a subrange: `min <= value <= max`). -/
def hitB (v : Int) (it : Item) : Bool := decide (it.min ≤ v ∧ v ≤ it.max)

/-- Linear scan written after the spec's words: walk the list in order
and return the first member whose range contains the value.  Used as
the reference implementation the binary search is compared with. -/
def linearScan (l : List Item) (v : Int) : Option Item :=
  l.find? (hitB v)

/-! Auxiliary lemmas about the sorting pass. -/

theorem mem_insertByMin {y x : Item} :
    ∀ {l : List Item}, y ∈ insertByMin x l ↔ y = x ∨ y ∈ l := by
  intro l
  induction l with
  | nil => simp [insertByMin]
  | cons z zs ih =>
      simp only [insertByMin]
      split
      · simp [List.mem_cons]
      · simp only [List.mem_cons, ih]
        tauto

theorem mem_sortByMin {y : Item} :
    ∀ {l : List Item}, y ∈ sortByMin l ↔ y ∈ l := by
  intro l
  induction l with
  | nil => simp [sortByMin]
  | cons z zs ih =>
      simp only [sortByMin, mem_insertByMin, ih, List.mem_cons]

theorem sorted_insertByMin {x : Item} :
    ∀ {l : List Item}, l.Pairwise (fun a b => a.min ≤ b.min) →
      (insertByMin x l).Pairwise (fun a b => a.min ≤ b.min) := by
  intro l
  induction l with
  | nil => simp [insertByMin]
  | cons y ys ih =>
      intro h
      rcases List.pairwise_cons.1 h with ⟨hy, hys⟩
      simp only [insertByMin]
      split
      · refine List.pairwise_cons.2 ⟨?_, h⟩
        intro b hb
        rcases List.mem_cons.1 hb with rfl | hb
        · omega
        · exact le_trans (by omega) (hy b hb)
      · refine List.pairwise_cons.2 ⟨?_, ih hys⟩
        intro b hb
        rcases mem_insertByMin.1 hb with rfl | hb
        · omega
        · exact hy b hb

theorem sorted_sortByMin :
    ∀ (l : List Item), (sortByMin l).Pairwise (fun a b => a.min ≤ b.min) := by
  intro l
  induction l with
  | nil => simp [sortByMin]
  | cons x xs ih => exact sorted_insertByMin ih

/-! Auxiliary lemmas: every successfully built item is a well-formed
range (`min ≤ max`). -/

theorem subrangef_wf {args : List PyVal} {kw : List (String × PyVal)}
    {it : Item} (h : subrangef args kw = .ok it) : it.min ≤ it.max := by
  unfold subrangef at h
  split at h
  · cases h
    exact le_refl _
  · split at h
    · cases h
      assumption
    · cases h
  · cases h

theorem items_factory_wf {as : List String} {ss nm : String} {d : PyVal}
    {it : Item} (h : items_factory as ss nm d = .ok it) :
    it.min ≤ it.max := by
  simp only [items_factory] at h
  split at h
  · exact subrangef_wf h
  · split at h
    · split at h
      · exact subrangef_wf h
      · cases h
    · cases h

theorem buildItems_wf {as : List String} {ss : String} :
    ∀ {ps : List (String × PyVal)} {its : List Item},
      buildItems as ss ps = .ok its → ∀ it ∈ its, it.min ≤ it.max := by
  intro ps
  induction ps with
  | nil =>
      intro its h
      cases h
      simp
  | cons p rest ih =>
      intro its h it hmem
      simp only [buildItems] at h
      split at h
      · cases h
      · split at h
        · cases h
        · cases h
          rcases List.mem_cons.1 hmem with rfl | hmem
          · exact items_factory_wf (by assumption)
          · exact ih (by assumption) it hmem

/-! Auxiliary lemmas about the adjacent-pairs overlap check. -/

theorem checkAdjacent_ok_iff :
    ∀ {l : List Item},
      checkAdjacent l = .ok () ↔ l.Chain' (fun a b => a.max < b.min) := by
  intro l
  induction l with
  | nil => simp [checkAdjacent]
  | cons a tl ih =>
      cases tl with
      | nil => simp [checkAdjacent]
      | cons b rest =>
          rw [List.chain'_cons]
          simp only [checkAdjacent]
          split
          next hcond =>
            rw [ih]
            exact (and_iff_right hcond).symm
          next hcond =>
            constructor
            · intro h
              cases h
            · rintro ⟨h1, _⟩
              exact absurd h1 hcond

theorem checkAdjacent_error :
    ∀ {l : List Item} {e : BuildErr}, checkAdjacent l = .error e →
      ∃ (i : Nat) (a b : Item), l[i]? = some a ∧ l[i + 1]? = some b ∧
        b.min ≤ a.max ∧
        e = .overlappingRangesError a.name a.min a.max b.name b.min b.max := by
  intro l
  induction l with
  | nil => intro e h; cases h
  | cons a tl ih =>
      cases tl with
      | nil => intro e h; cases h
      | cons b rest =>
          intro e h
          simp only [checkAdjacent] at h
          split at h
          · rcases ih h with ⟨i, x, y, hx, hy, hlt, he⟩
            exact ⟨i + 1, x, y, by simp [hx], by simp [hy], hlt, he⟩
          · cases h
            exact ⟨0, a, b, rfl, by simp, by omega, rfl⟩

/-- From local adjacency separation (plus well-formed ranges) to global
pairwise separation. -/
theorem chain'_pairwise_sep :
    ∀ {l : List Item}, (∀ it ∈ l, it.min ≤ it.max) →
      l.Chain' (fun a b => a.max < b.min) →
      l.Pairwise (fun a b => a.max < b.min) := by
  intro l
  induction l with
  | nil => simp
  | cons a tl ih =>
      intro hwf hch
      have htl : tl.Chain' (fun a b => a.max < b.min) := hch.tail
      have hp := ih (fun it h => hwf it (List.mem_cons_of_mem a h)) htl
      refine List.pairwise_cons.2 ⟨?_, hp⟩
      intro c hc
      cases tl with
      | nil => cases hc
      | cons b rest =>
          have hab : a.max < b.min := (List.chain'_cons.1 hch).1
          rcases List.mem_cons.1 hc with rfl | hc
          · exact hab
          · have hbc : b.max < c.min := (List.pairwise_cons.1 hp).1 c hc
            have hwb : b.min ≤ b.max :=
              hwf b (List.mem_cons_of_mem a (List.mem_cons_self b rest))
            omega

/-- Unfolding of a successful `buildEnumr` run: the raw items all
parsed, the stored `items` are their sort, the overlap check passed,
and the lookup structures are as built. -/
theorem build_ok_spec {cn : String} {as : List String} {ss : String}
    {decls : List (String × PyVal)} {d : EnumDef}
    (h : buildEnumr cn as ss decls = .ok d) :
    ∃ raw,
      buildItems as ss (decls.filter fun p => !isPrivateName p.1) = .ok raw ∧
      d.clsName = cn ∧
      d.items = sortByMin raw ∧
      checkAdjacent d.items = .ok () ∧
      d.lookupDict = d.items.map (fun it => (it.min, it)) ∧
      d.rangesList = d.items.filter (fun it => 1 < it.size) := by
  unfold buildEnumr at h
  rcases hb : buildItems as ss (decls.filter fun p => !isPrivateName p.1)
    with e | raw
  · simp only [hb] at h
    cases h
  · simp only [hb] at h
    rcases hc : checkAdjacent (sortByMin raw) with e | u
    · simp only [hc] at h
      cases h
    · cases u
      simp only [hc] at h
      cases h
      exact ⟨raw, rfl, rfl, rfl, hc, rfl, rfl⟩

/-! Uniqueness consequences of pairwise separation. -/

/-- With pairwise strictly separated ranges, at most one item contains
a given value. -/
theorem hit_unique {l : List Item} {v : Int}
    (hsep : l.Pairwise fun a b => a.max < b.min)
    {a b : Item} (ha : a ∈ l) (hb : b ∈ l)
    (hca : hitB v a = true) (hcb : hitB v b = true) : a = b := by
  by_contra hne
  have hsym : l.Pairwise fun x y => x.max < y.min ∨ y.max < x.min :=
    hsep.imp fun h => Or.inl h
  have := List.Pairwise.forall (fun x y h => h.symm) hsym ha hb hne
  simp only [hitB, decide_eq_true_eq] at hca hcb
  omega

/-- With pairwise separated well-formed ranges, at most one item has a
given lower bound. -/
theorem min_unique {l : List Item} {v : Int}
    (hsep : l.Pairwise fun a b => a.max < b.min)
    (hwf : ∀ it ∈ l, it.min ≤ it.max)
    {a b : Item} (ha : a ∈ l) (hb : b ∈ l)
    (hma : a.min = v) (hmb : b.min = v) : a = b := by
  by_contra hne
  have hsym : l.Pairwise fun x y => x.max < y.min ∨ y.max < x.min :=
    hsep.imp fun h => Or.inl h
  have := List.Pairwise.forall (fun x y h => h.symm) hsym ha hb hne
  have h1 := hwf a ha
  have h2 := hwf b hb
  omega

/-- First-match lemma: when the predicate picks out at most one list
element and `it` is a member satisfying it, `find?` returns `it`. -/
theorem find?_eq_some_of_unique {p : Item → Bool} :
    ∀ {l : List Item} {it : Item},
      (∀ a ∈ l, ∀ b ∈ l, p a = true → p b = true → a = b) →
      it ∈ l → p it = true → l.find? p = some it := by
  intro l
  induction l with
  | nil =>
      intro it _ h
      cases h
  | cons a tl ih =>
      intro it huniq hmem hp
      by_cases hpa : p a = true
      · rw [List.find?_cons_of_pos tl hpa]
        exact congrArg some
          (huniq a (List.mem_cons_self a tl) it hmem hpa hp)
      · have hit : it ∈ tl := by
          rcases List.mem_cons.1 hmem with rfl | hmem
          · exact absurd hp hpa
          · exact hmem
        rw [List.find?_cons_of_neg tl hpa]
        exact ih
          (fun x hx y hy => huniq x (List.mem_cons_of_mem a hx)
            y (List.mem_cons_of_mem a hy))
          hit hp

/-- `_lookup_dict` access versus searching the item list by exact
lower bound. -/
theorem lookupGet_map (items : List Item) (v : Int) :
    lookupGet (items.map fun it => (it.min, it)) v
      = items.find? (fun it => decide (it.min = v)) := by
  induction items with
  | nil => rfl
  | cons a tl ih =>
      by_cases h : a.min = v
      · simp [lookupGet, List.find?, h]
      · simpa [lookupGet, List.find?, h] using ih

/-! Correctness of the binary search: on a sorted list of pairwise
separated well-formed ranges it computes exactly the linear scan. -/

theorem bsearchAux_eq_linearScan {l : List Item} {v : Int}
    (hsep : l.Pairwise fun a b => a.max < b.min)
    (hwf : ∀ it ∈ l, it.min ≤ it.max) :
    ∀ (fuel : Nat) (left right : Int),
      0 ≤ left → right < (l.length : Int) →
      (right + 1 - left).toNat < fuel →
      (∀ (i : Nat) (hi : i < l.length), (i : Int) < left → l[i].max < v) →
      (∀ (i : Nat) (hi : i < l.length), right < (i : Int) → v < l[i].min) →
      bsearchAux l v fuel left right = linearScan l v := by
  have hidx : ∀ (i j : Nat) (hi : i < l.length) (hj : j < l.length),
      i < j → l[i].max < l[j].min := by
    intro i j hi hj hij
    exact List.pairwise_iff_getElem.1 hsep i j hi hj hij
  intro fuel
  induction fuel with
  | zero =>
      intro left right _ _ hf _ _
      omega
  | succ fuel ih =>
      intro left right h0 hlen hf hlo hhi
      rw [bsearchAux]
      dsimp only
      split
      case isTrue hle =>
        have hm1 : left ≤ (left + right) / 2 := by omega
        have hm2 : (left + right) / 2 ≤ right := by omega
        have hmlt : ((left + right) / 2).toNat < l.length := by omega
        have hmid : ((((left + right) / 2).toNat : Nat) : Int)
            = (left + right) / 2 := by omega
        rw [List.getElem?_eq_getElem hmlt]
        dsimp only
        set item := l[((left + right) / 2).toNat] with hitem
        have hmem : item ∈ l := List.getElem_mem hmlt
        split
        case isTrue hhit =>
          refine (find?_eq_some_of_unique ?_ hmem ?_).symm
          · intro a ha b hb hpa hpb
            exact hit_unique hsep ha hb hpa hpb
          · simpa [hitB] using hhit
        case isFalse hnohit =>
          split
          case isTrue hlt =>
            refine ih left ((left + right) / 2 - 1) h0 (by omega)
              (by omega) hlo ?_
            intro i hi hgt
            rcases lt_trichotomy (i : Int) ((left + right) / 2)
              with hc | hc | hc
            · omega
            · have : i = ((left + right) / 2).toNat := by omega
              subst this
              exact hlt
            · have hsepi : item.max < l[i].min := by
                refine hidx _ i hmlt hi ?_
                omega
              have hw : item.min ≤ item.max := hwf item hmem
              omega
          case isFalse hge =>
            have habove : item.max < v := by
              simp only [decide_eq_true_eq, not_and, not_lt] at hnohit hge
              omega
            refine ih ((left + right) / 2 + 1) right (by omega) hlen
              (by omega) ?_ hhi
            intro i hi hltm
            rcases lt_trichotomy (i : Int) ((left + right) / 2)
              with hc | hc | hc
            · have hsepi : l[i].max < item.min := by
                refine hidx i _ hi hmlt ?_
                omega
              simp only [decide_eq_true_eq, not_and, not_lt] at hge
              have hw : item.min ≤ item.max := hwf item hmem
              omega
            · have : i = ((left + right) / 2).toNat := by omega
              subst this
              exact habove
            · omega
      case isFalse hgt =>
        symm
        rw [linearScan, List.find?_eq_none]
        intro a hmem
        rcases List.mem_iff_getElem.1 hmem with ⟨i, hi, rfl⟩
        rcases lt_or_le (i : Int) left with hc | hc
        · have := hlo i hi hc
          simp [hitB]
          omega
        · have := hhi i hi (by omega)
          simp [hitB]
          omega

/-- The resolver's binary search agrees with the linear scan on every
sorted, pairwise separated, well-formed list. -/
theorem bsearch_eq_linearScan {l : List Item} {v : Int}
    (hsep : l.Pairwise fun a b => a.max < b.min)
    (hwf : ∀ it ∈ l, it.min ≤ it.max) :
    bsearch l v = linearScan l v := by
  rw [bsearch]
  refine bsearchAux_eq_linearScan hsep hwf (l.length + 1) 0
    ((l.length : Int) - 1) (by omega) (by omega) (by omega) ?_ ?_
  · intro i hi h
    omega
  · intro i hi h
    omega

/-! Structural facts about every successfully constructed definition. -/

theorem build_facts {cn : String} {as : List String} {ss : String}
    {decls : List (String × PyVal)} {d : EnumDef}
    (h : buildEnumr cn as ss decls = .ok d) :
    (∀ it ∈ d.items, it.min ≤ it.max) ∧
    d.items.Pairwise (fun a b => a.max < b.min) ∧
    d.items.Pairwise (fun a b => a.min ≤ b.min) ∧
    d.lookupDict = d.items.map (fun it => (it.min, it)) ∧
    d.rangesList = d.items.filter (fun it => 1 < it.size) ∧
    d.clsName = cn := by
  rcases build_ok_spec h with ⟨raw, hraw, hcls, hitems, hchk, hlk, hrg⟩
  have hwf : ∀ it ∈ d.items, it.min ≤ it.max := by
    intro it hit
    rw [hitems] at hit
    exact buildItems_wf hraw it (mem_sortByMin.1 hit)
  have hsep : d.items.Pairwise (fun a b => a.max < b.min) :=
    chain'_pairwise_sep hwf (checkAdjacent_ok_iff.1 hchk)
  have hsorted : d.items.Pairwise (fun a b => a.min ≤ b.min) := by
    rw [hitems]
    exact sorted_sortByMin raw
  exact ⟨hwf, hsep, hsorted, hlk, hrg, hcls⟩

/-- Characterization of the resolver on a validly constructed
definition at an integer value: it returns the unique member whose
range contains the value when one exists, and otherwise applies the
miss policy to `default`. -/
theorem resolve_int_eq {cn : String} {as : List String} {ss : String}
    {decls : List (String × PyVal)} {d : EnumDef}
    (h : buildEnumr cn as ss decls = .ok d) (v : Int) (default : PyVal) :
    resolve d (.pyInt v) default =
      match d.items.find? (hitB v) with
      | some it => .found it
      | none =>
          match default with
          | .pyType nm true => .missError nm v d.clsName
          | _ => .returned default := by
  obtain ⟨hwf, hsep, _, hlk, hrg, _⟩ := build_facts h
  have hsub : d.rangesList.Sublist d.items := by
    rw [hrg]
    exact List.filter_sublist _
  have hsepR : d.rangesList.Pairwise (fun a b => a.max < b.min) :=
    hsep.sublist hsub
  have hwfR : ∀ it ∈ d.rangesList, it.min ≤ it.max :=
    fun it hit => hwf it (hsub.subset hit)
  simp only [resolve]
  rw [hlk, lookupGet_map]
  rcases hfind : d.items.find? (fun it => decide (it.min = v)) with _ | it
  · have hnone : ∀ a ∈ d.items, a.min ≠ v := by
      intro a ha
      have := List.find?_eq_none.1 hfind a ha
      simpa using this
    rcases hks : d.items.find? (hitB v) with _ | M
    · have hlin : linearScan d.rangesList v = none := by
        rw [linearScan, List.find?_eq_none]
        intro a ha
        exact List.find?_eq_none.1 hks a (hsub.subset ha)
      rw [hfind, bsearch_eq_linearScan hsepR hwfR, hlin]
    · have hM : M ∈ d.items := List.mem_of_find?_eq_some hks
      have hhit : hitB v M = true := List.find?_some hks
      have h1 : M.min ≤ v ∧ v ≤ M.max := by simpa [hitB] using hhit
      have hMr : M ∈ d.rangesList := by
        rw [hrg]
        refine List.mem_filter.2 ⟨hM, ?_⟩
        have := hnone M hM
        simp only [Item.size, decide_eq_true_eq]
        omega
      have hlin : linearScan d.rangesList v = some M :=
        find?_eq_some_of_unique
          (fun a ha b hb => hit_unique hsepR ha hb) hMr hhit
      rw [hfind, bsearch_eq_linearScan hsepR hwfR, hlin]
  · have hmem : it ∈ d.items := List.mem_of_find?_eq_some hfind
    have heq : it.min = v := by simpa using List.find?_some hfind
    have hhit : hitB v it = true := by
      have := hwf it hmem
      simp only [hitB, decide_eq_true_eq]
      omega
    have hfound : d.items.find? (hitB v) = some it :=
      find?_eq_some_of_unique
        (fun a ha b hb => hit_unique hsep ha hb) hmem hhit
    rw [hfind, hfound]

/-! Concrete example definition (the `Devices1` class of the source's
test suite), used to witness the claim theorems. -/

def demoDecls : List (String × PyVal) :=
  [("PRIMARY", .pyInt 1), ("SECONDARY", .pyInt 2),
   ("USER_DEFINED", .pySeq [.pyInt 3, .pyInt 10]),
   ("RESERVED", .pySeq [.pyInt 11, .pyInt 14]),
   ("INVALID", .pyInt 15)]

def demoDef : EnumDef :=
  (buildEnumr "Devices1" [] "" demoDecls).toOption.getD ⟨"", [], [], []⟩

theorem demoDef_build : buildEnumr "Devices1" [] "" demoDecls = .ok demoDef :=
  rfl

def pItem : Item := ⟨1, 1, [("name", .pyStr "PRIMARY")]⟩

def uItem : Item := ⟨3, 10, [("name", .pyStr "USER_DEFINED")]⟩

theorem uItem_mem : uItem ∈ demoDef.items :=
  List.Mem.tail _ (List.Mem.tail _ (List.Mem.head _))

theorem pItem_mem : pItem ∈ demoDef.items :=
  List.Mem.head _

/-! The claims. -/

/-- C1: for every validly constructed enumeration definition, every
member `M` of it, and every integer `v` with `M.low ≤ v ≤ M.high`,
resolving `v` against the definition (with any `onMiss`/`default`
argument) returns exactly the member `M`. -/
theorem claim1_resolve_member_total {cn : String} {as : List String}
    {ss : String} {decls : List (String × PyVal)} {d : EnumDef}
    (h : buildEnumr cn as ss decls = .ok d) {M : Item} (hM : M ∈ d.items)
    {v : Int} (h1 : M.min ≤ v) (h2 : v ≤ M.max) (default : PyVal) :
    resolve d (.pyInt v) default = .found M := by
  obtain ⟨hwf, hsep, _, _, _, _⟩ := build_facts h
  have hhit : hitB v M = true := by
    simp only [hitB, decide_eq_true_eq]
    omega
  rw [resolve_int_eq h,
    find?_eq_some_of_unique
      (fun a ha b hb => hit_unique hsep ha hb) hM hhit]

/-- C1 witness: in the `Devices1` example, the value 7 (with `None` as
the default) resolves to the `USER_DEFINED` member covering 3..10. -/
theorem claim1_witness : resolve demoDef (.pyInt 7) .pyNone = .found uItem :=
  claim1_resolve_member_total demoDef_build uItem_mem
    (by decide) (by decide) .pyNone

/-- C2: for a validly constructed definition and an integer `v`
contained in no member's range, resolving with a `default` that is not
an exception class returns that `default` unchanged, and resolving
with an exception class raises that error kind parameterized by the
value and the definition's name. -/
theorem claim2_resolve_miss {cn : String} {as : List String} {ss : String}
    {decls : List (String × PyVal)} {d : EnumDef}
    (h : buildEnumr cn as ss decls = .ok d) {v : Int}
    (hmiss : ∀ it ∈ d.items, ¬(it.min ≤ v ∧ v ≤ it.max)) :
    (∀ default : PyVal, isExcClass default = false →
        resolve d (.pyInt v) default = .returned default) ∧
    (∀ nm : String, resolve d (.pyInt v) (.pyType nm true)
        = .missError nm v d.clsName) := by
  have hks : d.items.find? (hitB v) = none := by
    rw [List.find?_eq_none]
    intro a ha
    simp only [hitB, decide_eq_true_eq]
    exact hmiss a ha
  constructor
  · intro default hD
    rw [resolve_int_eq h, hks]
    cases default with
    | pyType nm b =>
        cases b with
        | true => simp [isExcClass] at hD
        | false => rfl
    | _ => rfl
  · intro nm
    rw [resolve_int_eq h, hks]

/-- C2 witness: in the `Devices1` example the value 20 is covered by
no member; with `None` it is returned unchanged and with the
`ValueError` class a `ValueError` parameterized by 20 and the class
name is raised. -/
theorem claim2_witness :
    resolve demoDef (.pyInt 20) .pyNone = .returned .pyNone ∧
    resolve demoDef (.pyInt 20) (.pyType "ValueError" true)
      = .missError "ValueError" 20 "Devices1" :=
  ⟨(claim2_resolve_miss demoDef_build (by decide)).1 .pyNone rfl,
   (claim2_resolve_miss demoDef_build (by decide)).2 "ValueError"⟩

/-- C7: for every validly constructed definition, the extended-members
list used for binary search is sorted ascending by lower bound, and
for every integer value the binary search over that list returns the
same result as a linear scan of the same list. -/
theorem claim7_bsearch_eq_linear {cn : String} {as : List String}
    {ss : String} {decls : List (String × PyVal)} {d : EnumDef}
    (h : buildEnumr cn as ss decls = .ok d) :
    d.rangesList.Pairwise (fun a b => a.min ≤ b.min) ∧
    ∀ v : Int, bsearch d.rangesList v = linearScan d.rangesList v := by
  obtain ⟨hwf, hsep, hsorted, _, hrg, _⟩ := build_facts h
  have hsub : d.rangesList.Sublist d.items := by
    rw [hrg]
    exact List.filter_sublist _
  exact ⟨hsorted.sublist hsub,
    fun v => bsearch_eq_linearScan (hsep.sublist hsub)
      (fun it hit => hwf it (hsub.subset hit))⟩

/-- C7 witness: in the `Devices1` example the binary-search list is
sorted by lower bound and binary search agrees with the linear scan at
the value 12. -/
theorem claim7_witness :
    demoDef.rangesList.Pairwise (fun a b => a.min ≤ b.min) ∧
    bsearch demoDef.rangesList 12 = linearScan demoDef.rangesList 12 :=
  ⟨(claim7_bsearch_eq_linear demoDef_build).1,
   (claim7_bsearch_eq_linear demoDef_build).2 12⟩

/-- C8: every definition that construction successfully produces
satisfies the non-overlap invariant: any two distinct members are
strictly separated. -/
theorem claim8_nonoverlap {cn : String} {as : List String} {ss : String}
    {decls : List (String × PyVal)} {d : EnumDef}
    (h : buildEnumr cn as ss decls = .ok d) :
    ∀ A ∈ d.items, ∀ B ∈ d.items, A ≠ B →
      A.max < B.min ∨ B.max < A.min := by
  obtain ⟨_, hsep, _, _, _, _⟩ := build_facts h
  have hsym : d.items.Pairwise
      (fun x y => x.max < y.min ∨ y.max < x.min) :=
    hsep.imp fun hx => Or.inl hx
  intro A hA B hB hne
  exact List.Pairwise.forall (fun x y hxy => hxy.symm) hsym hA hB hne

/-- C8 witness: in the `Devices1` example the `PRIMARY` and
`USER_DEFINED` members are strictly separated. -/
theorem claim8_witness :
    pItem.max < uItem.min ∨ uItem.max < pItem.min :=
  claim8_nonoverlap demoDef_build pItem pItem_mem uItem uItem_mem
    (fun hEq => absurd (congrArg Item.min hEq) (by decide))

/-- C9: resolving a non-integer value against any definition fails
with the invalid-value-type error regardless of the default argument,
and resolving an integer value never fails with that error. -/
theorem claim9_type_guard :
    (∀ (d : EnumDef) (value default : PyVal),
        (∀ n : Int, value ≠ .pyInt n) →
        resolve d value default = .typeError value) ∧
    (∀ (d : EnumDef) (default : PyVal) (n : Int) (w : PyVal),
        resolve d (.pyInt n) default ≠ .typeError w) := by
  constructor
  · intro d value default hni
    cases value with
    | pyInt n => exact absurd rfl (hni n)
    | pyStr s => rfl
    | pySeq l => rfl
    | pyNone => rfl
    | pyType nm b => rfl
    | pyExc e => rfl
  · intro d default n w heq
    simp only [resolve] at heq
    rcases h1 : lookupGet d.lookupDict n with _ | it
    · rw [h1] at heq
      rcases h2 : bsearch d.rangesList n with _ | it
      · rw [h2] at heq
        cases default with
        | pyType nm b =>
            cases b with
            | true => exact ResolveOutcome.noConfusion heq
            | false => exact ResolveOutcome.noConfusion heq
        | pyInt m => exact ResolveOutcome.noConfusion heq
        | pyStr s => exact ResolveOutcome.noConfusion heq
        | pySeq l => exact ResolveOutcome.noConfusion heq
        | pyNone => exact ResolveOutcome.noConfusion heq
        | pyExc e => exact ResolveOutcome.noConfusion heq
      · rw [h2] at heq
        exact ResolveOutcome.noConfusion heq
    · rw [h1] at heq
      exact ResolveOutcome.noConfusion heq

/-- C9 witness: `None` is rejected with the invalid-value-type error
while the integer 5 is not. -/
theorem claim9_witness :
    resolve demoDef .pyNone .pyNone = .typeError .pyNone ∧
    resolve demoDef (.pyInt 5) .pyNone ≠ .typeError (.pyInt 5) :=
  ⟨claim9_type_guard.1 demoDef .pyNone .pyNone
      (fun _ h => PyVal.noConfusion h),
   claim9_type_guard.2 demoDef .pyNone 5 (.pyInt 5)⟩

/-- C10: on a resolution miss the default argument is raised only when
it is itself an exception class; an exception instance passed as the
default is an ordinary fallback value, returned unchanged rather than
raised. -/
theorem claim10_instance_not_raised {cn : String} {as : List String}
    {ss : String} {decls : List (String × PyVal)} {d : EnumDef}
    (h : buildEnumr cn as ss decls = .ok d) {v : Int}
    (hmiss : ∀ it ∈ d.items, ¬(it.min ≤ v ∧ v ≤ it.max)) :
    (∀ enm : String, resolve d (.pyInt v) (.pyExc enm)
        = .returned (.pyExc enm)) ∧
    (∀ default : PyVal,
      (∃ k : String, resolve d (.pyInt v) default
          = .missError k v d.clsName) ↔
      (∃ nm : String, default = .pyType nm true)) := by
  have hks : d.items.find? (hitB v) = none := by
    rw [List.find?_eq_none]
    intro a ha
    simp only [hitB, decide_eq_true_eq]
    exact hmiss a ha
  constructor
  · intro enm
    rw [resolve_int_eq h, hks]
  · intro default
    rw [resolve_int_eq h, hks]
    cases default with
    | pyType nm b =>
        cases b with
        | true =>
            constructor
            · intro _
              exact ⟨nm, rfl⟩
            · intro _
              exact ⟨nm, rfl⟩
        | false =>
            constructor
            · rintro ⟨k, hk⟩
              exact ResolveOutcome.noConfusion hk
            · rintro ⟨nm', hnm⟩
              cases hnm
    | pyInt m =>
        constructor
        · rintro ⟨k, hk⟩
          exact ResolveOutcome.noConfusion hk
        · rintro ⟨nm', hnm⟩
          cases hnm
    | pyStr s =>
        constructor
        · rintro ⟨k, hk⟩
          exact ResolveOutcome.noConfusion hk
        · rintro ⟨nm', hnm⟩
          cases hnm
    | pySeq l =>
        constructor
        · rintro ⟨k, hk⟩
          exact ResolveOutcome.noConfusion hk
        · rintro ⟨nm', hnm⟩
          cases hnm
    | pyNone =>
        constructor
        · rintro ⟨k, hk⟩
          exact ResolveOutcome.noConfusion hk
        · rintro ⟨nm', hnm⟩
          cases hnm
    | pyExc e =>
        constructor
        · rintro ⟨k, hk⟩
          exact ResolveOutcome.noConfusion hk
        · rintro ⟨nm', hnm⟩
          cases hnm

/-- C10 witness: in the `Devices1` example at the missing value 20, a
`ValueError` instance passed as the default is returned unchanged, and
the miss error is raised exactly for exception-class defaults. -/
theorem claim10_witness :
    resolve demoDef (.pyInt 20) (.pyExc "ValueError")
      = .returned (.pyExc "ValueError") ∧
    ((∃ k : String, resolve demoDef (.pyInt 20) (.pyExc "ValueError")
        = .missError k 20 demoDef.clsName) ↔
     (∃ nm : String, (.pyExc "ValueError" : PyVal) = .pyType nm true)) :=
  ⟨(claim10_instance_not_raised demoDef_build (by decide)).1 "ValueError",
   (claim10_instance_not_raised demoDef_build (by decide)).2
      (.pyExc "ValueError")⟩

/-! Helpers for the construction-error claims. -/

theorem buildItems_append_error {as : List String} {ss : String}
    {x : String × PyVal} {e : BuildErr}
    (hx : items_factory as ss x.1 x.2 = .error e) :
    ∀ qre : List (String × PyVal),
      (∀ p ∈ qre, ∃ it, items_factory as ss p.1 p.2 = .ok it) →
      ∀ rs : List (String × PyVal),
        buildItems as ss (qre ++ x :: rs) = .error e := by
  intro qre
  induction qre with
  | nil =>
      intro _ rs
      simp only [List.nil_append, buildItems]
      rw [hx]
  | cons q qs ih =>
      intro hq rs
      obtain ⟨it, hit⟩ := hq q (List.mem_cons_self q qs)
      rw [List.cons_append]
      simp only [buildItems, hit]
      rw [ih (fun p hp => hq p (List.mem_cons_of_mem q hp)) rs]

theorem items_factory_arity {as : List String} {ss nm : String}
    (hne : as ≠ []) {elems : List PyVal}
    (hlen : elems.length ≠ 1 + as.length) :
    items_factory as ss nm (.pySeq elems)
      = .error (.descrArityError nm elems.length (1 + as.length)) := by
  simp [items_factory, hne, hlen]

theorem items_factory_type {as : List String} {ss nm : String}
    (hne : as ≠ []) {descr : PyVal}
    (hseq : ∀ elems : List PyVal, descr ≠ .pySeq elems) :
    items_factory as ss nm descr
      = .error (.descrTypeError nm (pyTypeName descr)) := by
  cases descr with
  | pySeq l => exact absurd rfl (hseq l)
  | pyInt n => simp [items_factory, hne]
  | pyStr s => simp [items_factory, hne]
  | pyNone => simp [items_factory, hne]
  | pyType t b => simp [items_factory, hne]
  | pyExc e => simp [items_factory, hne]

/-- C3: with every descriptor parsing successfully (`hraw`),
construction fails with the overlapping-ranges error if and only if,
after sorting the members ascending by lower bound, some adjacent pair
satisfies `prev.high ≥ next.low`; construction is all-or-nothing, the
error branch producing no definition. -/
theorem claim3_overlap_iff {cn : String} {as : List String} {ss : String}
    {decls : List (String × PyVal)} {raw : List Item}
    (hraw : buildItems as ss (decls.filter fun p => !isPrivateName p.1)
      = .ok raw) :
    (∃ (pn : String) (pl ph : Int) (nn : String) (nl nh : Int),
        buildEnumr cn as ss decls
          = .error (.overlappingRangesError pn pl ph nn nl nh)) ↔
    (∃ (i : Nat) (a b : Item), (sortByMin raw)[i]? = some a ∧
        (sortByMin raw)[i + 1]? = some b ∧ b.min ≤ a.max) := by
  rcases hc : checkAdjacent (sortByMin raw) with e | u
  · have hbuild : buildEnumr cn as ss decls = .error e := by
      unfold buildEnumr
      simp only [hraw, hc]
    rcases checkAdjacent_error hc with ⟨i, a, b, h1, h2, h3, he⟩
    constructor
    · intro _
      exact ⟨i, a, b, h1, h2, h3⟩
    · intro _
      subst he
      exact ⟨a.name, a.min, a.max, b.name, b.min, b.max, hbuild⟩
  · cases u
    have hne : ∀ e' : BuildErr, buildEnumr cn as ss decls ≠ .error e' := by
      intro e' habs
      unfold buildEnumr at habs
      simp only [hraw, hc] at habs
      exact Except.noConfusion habs
    constructor
    · rintro ⟨pn, pl, ph, nn, nl, nh, habs⟩
      exact absurd habs (hne _)
    · rintro ⟨i, a, b, h1, h2, h3⟩
      have hch := checkAdjacent_ok_iff.1 hc
      obtain ⟨hi, ha⟩ := List.getElem?_eq_some.1 h1
      obtain ⟨hi2, hb⟩ := List.getElem?_eq_some.1 h2
      have hR := List.chain'_iff_get.1 hch i (by omega)
      simp only [List.get_eq_getElem] at hR
      rw [ha, hb] at hR
      omega

/-- C3 witness: the touching descriptors `A = (1, 5)` and
`B = (5, 10)` of the spec's Example 3 make construction fail with an
overlapping-ranges error. -/
theorem claim3_witness :
    ∃ (pn : String) (pl ph : Int) (nn : String) (nl nh : Int),
      buildEnumr "E" [] ""
          [("A", .pySeq [.pyInt 1, .pyInt 5]),
           ("B", .pySeq [.pyInt 5, .pyInt 10])]
        = .error (.overlappingRangesError pn pl ph nn nl nh) :=
  (@claim3_overlap_iff "E" [] ""
      [("A", .pySeq [.pyInt 1, .pyInt 5]),
       ("B", .pySeq [.pyInt 5, .pyInt 10])]
      [⟨1, 5, [("name", .pyStr "A")]⟩, ⟨5, 10, [("name", .pyStr "B")]⟩]
      rfl).mpr
    ⟨0, ⟨1, 5, [("name", .pyStr "A")]⟩, ⟨5, 10, [("name", .pyStr "B")]⟩,
      rfl, rfl, by decide⟩

/-- C4 counterexample: in the `Devices1` example the direct lookup
table contains the key 3 mapped to an extended member (`low = 3 <
high = 10`), contradicting the claim that extended members appear only
in the binary-search list and not in the direct lookup table. -/
theorem claim4_counterexample :
    ((buildEnumr "Devices1" [] "" demoDecls).toOption.bind fun d =>
        (lookupGet d.lookupDict 3).map fun it => decide (it.min < it.max))
      = some true := rfl

/-- C4 amended: the direct lookup table maps `low` to its member for
every member, singleton or extended (lookup by exact lower bound
returns that member), while the binary-search list contains exactly
the extended members. -/
theorem claim4_lookup_all_members {cn : String} {as : List String}
    {ss : String} {decls : List (String × PyVal)} {d : EnumDef}
    (h : buildEnumr cn as ss decls = .ok d) :
    (∀ M ∈ d.items, lookupGet d.lookupDict M.min = some M) ∧
    (∀ M ∈ d.items, (M ∈ d.rangesList ↔ M.min < M.max)) := by
  obtain ⟨hwf, hsep, _, hlk, hrg, _⟩ := build_facts h
  constructor
  · intro M hM
    rw [hlk, lookupGet_map]
    refine find?_eq_some_of_unique ?_ hM (by simp)
    intro a ha b hb hpa hpb
    simp only [decide_eq_true_eq] at hpa hpb
    exact min_unique hsep hwf ha hb hpa hpb
  · intro M hM
    rw [hrg, List.mem_filter]
    simp only [hM, true_and, Item.size, decide_eq_true_eq]
    omega

/-- C4 witness: in the `Devices1` example, looking up the extended
member `USER_DEFINED` by its lower bound 3 returns it, and it belongs
to the binary-search list because its range is extended. -/
theorem claim4_witness :
    lookupGet demoDef.lookupDict uItem.min = some uItem ∧
    (uItem ∈ demoDef.rangesList ↔ uItem.min < uItem.max) :=
  ⟨(claim4_lookup_all_members demoDef_build).1 uItem uItem_mem,
   (claim4_lookup_all_members demoDef_build).2 uItem uItem_mem⟩

/-- C5 counterexample: declaring the reserved attribute name `name` in
the attribute-name list does not make construction fail at all — the
build succeeds, so no reserved-attribute-name error is raised at
definition-build time. -/
theorem claim5_counterexample :
    (buildEnumr "D" ["name"] ""
        [("A", .pySeq [.pyInt 1, .pyStr "custom"])]).toOption.isSome
      = true := rfl

/-- C5 amended: the builder performs no reserved-attribute-name
validation; declaring `name` in the attribute-name list succeeds, and
whatever value the descriptor supplies for it is silently overwritten
by the member's identifier (the builder stores `kwargs` with `name`
last). -/
theorem claim5_name_overwritten (val : PyVal) :
    ∃ d : EnumDef,
      buildEnumr "D" ["name"] "" [("A", .pySeq [.pyInt 1, val])]
        = .ok d ∧
      ∀ it ∈ d.items, it.name = "A" := by
  refine ⟨⟨"D", [⟨1, 1, [("name", .pyStr "A")]⟩],
      [(1, ⟨1, 1, [("name", .pyStr "A")]⟩)], []⟩, rfl, ?_⟩
  intro it hit
  rcases List.mem_singleton.1 hit with rfl
  rfl

/-- C5 witness: at the concrete declared value `"custom"`, the build
succeeds and the member's `name` attribute is the identifier `A`, not
the declared value. -/
theorem claim5_witness :
    ∃ d : EnumDef,
      buildEnumr "D" ["name"] ""
          [("A", .pySeq [.pyInt 1, .pyStr "custom"])] = .ok d ∧
      ∀ it ∈ d.items, it.name = "A" :=
  claim5_name_overwritten (.pyStr "custom")

/-- C6: when the definition declares a non-empty attribute-name list
of `N` names, a member descriptor that is a sequence of other than
`1 + N` elements fails construction with the descriptor-arity error
reporting the actual count, the expected count and the member name,
and a descriptor that is not a sequence at all fails construction with
the descriptor-type error; `hpre` states that the earlier declarations
parse, so the named member is the one that raises. -/
theorem claim6_descriptor_shape {cn : String} {as : List String}
    {ss : String} (hne : as ≠ []) {pre rest : List (String × PyVal)}
    {nm : String} (hnm : isPrivateName nm = false) {descr : PyVal}
    (hpre : ∀ p ∈ pre, isPrivateName p.1 = false →
        ∃ it, items_factory as ss p.1 p.2 = .ok it) :
    (∀ elems : List PyVal, descr = .pySeq elems →
        elems.length ≠ 1 + as.length →
        buildEnumr cn as ss (pre ++ (nm, descr) :: rest)
          = .error (.descrArityError nm elems.length (1 + as.length))) ∧
    ((∀ elems : List PyVal, descr ≠ .pySeq elems) →
        buildEnumr cn as ss (pre ++ (nm, descr) :: rest)
          = .error (.descrTypeError nm (pyTypeName descr))) := by
  have hfilter : (pre ++ (nm, descr) :: rest).filter
        (fun p => !isPrivateName p.1)
      = pre.filter (fun p => !isPrivateName p.1)
        ++ (nm, descr) :: rest.filter (fun p => !isPrivateName p.1) := by
    simp [List.filter_append, List.filter_cons, hnm]
  have herr : ∀ e : BuildErr,
      items_factory as ss nm descr = .error e →
      buildEnumr cn as ss (pre ++ (nm, descr) :: rest) = .error e := by
    intro e he
    have hb : buildItems as ss
        ((pre ++ (nm, descr) :: rest).filter fun p => !isPrivateName p.1)
        = .error e := by
      rw [hfilter]
      refine buildItems_append_error he _ ?_ _
      intro p hp
      have hp' := List.mem_filter.1 hp
      exact hpre p hp'.1 (by simpa using hp'.2)
    unfold buildEnumr
    simp only [hb]
  constructor
  · intro elems hde hlen
    subst hde
    exact herr _ (items_factory_arity hne hlen)
  · intro hseq
    exact herr _ (items_factory_type hne hseq)

/-- C6 witness: the spec's Example 4 — attribute names
`(brief, ref)` but a two-field descriptor — fails with the
descriptor-arity error reporting 2 actual fields, 3 expected, and the
member name `A`. -/
theorem claim6_witness :
    buildEnumr "D" ["brief", "ref"] ""
        [("A", .pySeq [.pyInt 1, .pyStr "only one extra field"])]
      = .error (.descrArityError "A" 2 3) :=
  (@claim6_descriptor_shape "D" ["brief", "ref"] "" (by decide) [] []
      "A" rfl (.pySeq [.pyInt 1, .pyStr "only one extra field"])
      (fun p hp _ => absurd hp (List.not_mem_nil p))).1
    [.pyInt 1, .pyStr "only one extra field"] rfl (by decide)

end Enumr
